import Mathlib

/-
  Verification development for the fetch-scrape request scheduler
  (src/index.js, class Connection).

  The embedding below translates the class-based Connection of src/index.js:
  configuration construction (Connection.create, the private-token constructor,
  the four getter-only accessors), the bundle id counter (#bundle / #unique),
  the rate-limiter dispatch-time computation (#bundle: delayMs, setTimeout,
  lastFetchTime update at dispatch), and the swarm scheduling loop
  (pull / admit / race / evict / yield) as a deterministic step machine.

  The transport dependency (global fetch) is opaque: it is modelled by an
  environment assigning each bundle an absolute settle time (when its promise
  settles, which is what Promise.race observes) and an outcome (a response, or
  a rejection cause). Machine integers are Nat; Number.MAX_SAFE_INTEGER is
  2 ^ 53 - 1.
-/

namespace FetchScrape

/-- Request descriptors are opaque values the scheduler never inspects;
modelled as Nat. -/
abbrev Request := Nat

/-- Responses are opaque values produced by the transport; modelled as Nat. -/
abbrev Response := Nat

/-- Number.MAX_SAFE_INTEGER, the reserved sentinel the id counter never
assigns (src/index.js line 213). -/
def MAX_SAFE_INTEGER : Nat := 2 ^ 53 - 1

/-- One step of the id assignment in Connection.bundle (src/index.js lines
210-213): the assigned id is the current value of the unique counter, the
counter is incremented, and if the incremented counter equals
Number.MAX_SAFE_INTEGER it is reset to 1. Returns (assigned id, new counter). -/
def nextBundleId (unique : Nat) : Nat × Nat :=
  let id := unique
  let u := unique + 1
  (id, if u = MAX_SAFE_INTEGER then 1 else u)

/-- The options record accepted by Connection.create; each field may be
absent (undefined), in which case the constructor keeps the default
(src/index.js lines 96-99, nullish coalescing). -/
structure ConnOptions where
  concurrency : Option Nat := none
  minMsBetweenRequests : Option Nat := none
  timeoutMs : Option Nat := none
  retry : Option Nat := none
deriving DecidableEq, Repr

/-- The per-connection configuration held in the private fields
(src/index.js lines 83-86), set once by the constructor. -/
structure Connection where
  concurrency : Nat
  minMsBetweenRequests : Nat
  timeoutMs : Nat
  retry : Nat
deriving DecidableEq, Repr

/-- Errors raised on the construction and mutation paths. -/
inductive JsTypeError where
  /-- Thrown when the constructor is invoked without the private token
  (src/index.js lines 92-94). -/
  | constructorMisuse : JsTypeError
  /-- Thrown by strict-mode assignment to a property that has a getter but
  no setter. -/
  | noSetter : JsTypeError
deriving DecidableEq, Repr

/-- The private construction token: only Connection.create holds
Connection.privacy (src/index.js line 80). -/
inductive ConstructToken where
  | privacy : ConstructToken
  | outside : ConstructToken
deriving DecidableEq, Repr

/-- The Connection constructor (src/index.js lines 91-100): rejects any
caller not presenting the private token, otherwise fills each field from the
options record with nullish-coalescing defaults 2, 150, 0, 0. -/
def connectionConstructor (options : Option ConnOptions) (token : ConstructToken) :
    Except JsTypeError Connection :=
  match token with
  | .outside => .error .constructorMisuse
  | .privacy => .ok
      { concurrency := (options.bind (·.concurrency)).getD 2
        minMsBetweenRequests := (options.bind (·.minMsBetweenRequests)).getD 150
        timeoutMs := (options.bind (·.timeoutMs)).getD 0
        retry := (options.bind (·.retry)).getD 0 }

/-- Connection.create (src/index.js lines 112-114): calls the constructor
with the private token and returns the instance. The body performs no
validation of the option values. -/
def Connection.create (options : Option ConnOptions) : Except JsTypeError Connection :=
  connectionConstructor options .privacy

/-- The four configuration fields exposed through getter accessors
(src/index.js lines 116-130). -/
inductive ConfigField where
  | concurrency | minMsBetweenRequests | timeoutMs | retry
deriving DecidableEq, Repr

/-- Reading a configuration field through its getter accessor. -/
def getField (c : Connection) : ConfigField → Nat
  | .concurrency => c.concurrency
  | .minMsBetweenRequests => c.minMsBetweenRequests
  | .timeoutMs => c.timeoutMs
  | .retry => c.retry

/-- The setter table of the Connection class: the class body declares get
accessors for the four fields and no set accessors (src/index.js lines
116-130), so every field maps to none. -/
def fieldSetter : ConfigField → Option (Connection → Nat → Connection) :=
  fun _ => none

/-- Strict-mode property assignment on a Connection instance: if the class
provides a setter it runs and produces the updated object; with no setter the
assignment throws a TypeError and the object is unchanged. Returns the
assignment outcome together with the object as it stands after the attempt. -/
def attemptAssign (c : Connection) (f : ConfigField) (v : Nat) :
    Except JsTypeError Connection × Connection :=
  match fieldSetter f with
  | some setter => (.ok (setter c v), setter c v)
  | none => (.error .noSetter, c)

/-!
  Rate limiter (Connection.bundle, src/index.js lines 215-246).

  At admission time t the bundle computes delayMs = lastFetchTime +
  minMsBetweenRequests - now; a positive delay schedules the fetch via
  setTimeout(delayMs), otherwise the fetch is dispatched immediately. The
  dispatch itself (inside delayPromise.then) records its own wall-clock time
  into the shared lastFetchTime. So the dispatch time of a bundle admitted at
  time t is max t (last + m), where last is the value of lastFetchTime
  visible at time t, namely the largest dispatch time not exceeding t among
  the dispatches committed by earlier-admitted bundles (initially 0).
-/

/-- The value of lastFetchTime visible at time t, given the dispatch times of
earlier-admitted bundles: each dispatch writes its own time, so the visible
value is the latest (largest) dispatch time that has already happened,
0 before any dispatch. -/
def lastAt (dispatches : List Nat) (t : Nat) : Nat :=
  (dispatches.filter (· ≤ t)).foldl max 0

/-- Dispatch time of one bundle admitted at time t: immediately if the
computed delay is not positive, else at lastFetchTime + minMs. -/
def dispatchTime (m last t : Nat) : Nat :=
  max t (last + m)

/-- Dispatch schedule of a sequence of admissions (admission times in
admission order): each bundle reads lastFetchTime at its admission time and
commits its own dispatch time, exactly as Connection.bundle does. -/
def dispatchGo (m : Nat) (prior : List Nat) : List Nat → List Nat
  | [] => []
  | t :: rest =>
      let d := dispatchTime m (lastAt prior t) t
      d :: dispatchGo m (prior ++ [d]) rest

/-- Dispatch times of a run starting from a fresh connection
(lastFetchTime = 0, no prior dispatches). -/
def dispatchSchedule (m : Nat) (ts : List Nat) : List Nat :=
  dispatchGo m [] ts

/-- Serialized-admission condition: each admission happens no earlier than
the dispatch of the previously admitted bundle (so no two bundles ever
compute their delays from the same stale lastFetchTime). -/
def serialAdmissionsB (m : Nat) (prior : List Nat) : List Nat → Bool
  | [] => true
  | [_] => true
  | t1 :: t2 :: rest =>
      let d := dispatchTime m (lastAt prior t1) t1
      decide (d ≤ t2) && serialAdmissionsB m (prior ++ [d]) (t2 :: rest)

/-!
  The swarm scheduling loop (Connection.swarm, src/index.js lines 163-193).

  The transport is an opaque environment: every bundle (id, request) has an
  absolute settle time (the wall-clock moment its promise settles, which is
  all Promise.race observes) and an outcome, either a response (resolve) or a
  rejection cause. Promise.race over the in-flight map resolves with the
  earliest-settling member; among members settling at the same instant the
  one earliest in map insertion order wins.
-/

/-- The transport environment: settle time and outcome of the bundle with
the given id and request. A rejection is represented by an opaque cause. -/
structure FetchEnv where
  settle : Nat → Request → Nat
  result : Nat → Request → Except Nat Response

/-- A fulfilled bundle value, as resolved in Connection.bundle (src/index.js
lines 233-237): the id, the originating request and the transport response. -/
structure FetchResult where
  _id : Nat
  request : Request
  response : Response
deriving DecidableEq, Repr

/-- A rejected bundle error, as built in the catch handler of
Connection.bundle (src/index.js lines 239-243): the cause with the bundle id
and the originating request attached onto it. -/
structure FetchError where
  message : Nat
  errId : Option Nat := none
  errRequest : Option Request := none
deriving DecidableEq, Repr

/-- Map.set on the insertion-ordered in-flight map: replaces in place when
the key exists, otherwise appends. -/
def mapSet (m : List (Nat × Request)) (k : Nat) (v : Request) : List (Nat × Request) :=
  if m.any (fun p => p.1 = k) then
    m.map (fun p => if p.1 = k then (k, v) else p)
  else
    m ++ [(k, v)]

/-- Map.delete on the insertion-ordered in-flight map. -/
def mapDelete (m : List (Nat × Request)) (k : Nat) : List (Nat × Request) :=
  m.filter (fun p => ¬ p.1 = k)

/-- Promise.race over a nonempty in-flight map b :: bs: the member with the
least settle time, ties going to the earlier insertion position. -/
def raceAux (env : FetchEnv) (b : Nat × Request) : List (Nat × Request) → Nat × Request
  | [] => b
  | c :: cs =>
      if env.settle c.1 c.2 < env.settle b.1 b.2 then raceAux env c cs
      else raceAux env b cs

/-- Observation record of one iteration of the while loop, for stating
run-wide invariants. -/
structure StepLog where
  doneAtStart : Bool
  pulled : Bool
  sizeAfterAdmit : Nat
  keysAfterAdmit : List Nat
  raceSnapshot : Option (List (Nat × Request) × (Nat × Request)) := none
  sizeAtEnd : Nat
deriving DecidableEq, Repr

/-- The mutable state of one swarm invocation: the iterator position and its
done flag, the held result awaiting yield, the in-flight map, the id
counter, and observation accumulators (next() call count, fetch dispatch
count, yielded outcomes, race winners, per-iteration logs). -/
structure LoopState where
  remaining : List Request
  reqDone : Bool
  res : Option FetchResult
  inflight : List (Nat × Request)
  uniq : Nat
  nextCalls : Nat
  attempts : Nat
  yields : List FetchResult
  winners : List (Nat × Request)
  logs : List StepLog
deriving DecidableEq, Repr

/-- Result of a swarm run: the final state, the exception that terminated
the generator if any (awaiting a rejected race throws, src/index.js line
182), and whether the step budget ran out (never happens from swarmRun). -/
structure RunResult where
  final : LoopState
  error : Option FetchError := none
  fuelOut : Bool := false
deriving DecidableEq, Repr

/-- The pull phase of one loop iteration (src/index.js lines 169-175): if
the iterator has not reported done, invoke next() once; a value is wrapped
into a bundle (assigning an id, consuming one fetch dispatch) and admitted
into the in-flight map, exhaustion sets the done flag. -/
def pullPhase (s : LoopState) : LoopState :=
  if s.reqDone then s
  else
    match s.remaining with
    | [] => { s with reqDone := true, nextCalls := s.nextCalls + 1 }
    | r :: rest =>
        { s with
          remaining := rest
          nextCalls := s.nextCalls + 1
          uniq := (nextBundleId s.uniq).2
          attempts := s.attempts + 1
          inflight := mapSet s.inflight (nextBundleId s.uniq).1 r }

/-- Outcome of one iteration: the loop either returns (normally or by a
thrown error) or continues with a new state. -/
inductive StepOut where
  | halt : RunResult → StepOut
  | next : LoopState → StepOut
deriving DecidableEq, Repr

/-- Builds the observation record of one iteration, given the done flag at
iteration start and the state after the pull phase. -/
def mkLog (d0 : Bool) (s1 : LoopState)
    (snap : Option (List (Nat × Request) × (Nat × Request))) (endSize : Nat) : StepLog :=
  { doneAtStart := d0
    pulled := !d0
    sizeAfterAdmit := s1.inflight.length
    keysAfterAdmit := s1.inflight.map Prod.fst
    raceSnapshot := snap
    sizeAtEnd := endSize }

/-- The decision part of one loop iteration, applied to the state s1 left by
the pull phase (d0 is the done flag at iteration start, recorded in the
log). Mirrors src/index.js lines 177-184: return when the in-flight map is
empty (yielding the held result first); when the map is full or the input is
exhausted, yield the held result, await Promise.race, and on resolution
evict the winner and hold its value, while awaiting a rejected winner throws
the tagged error out of the generator (the winner is not evicted); in all
other cases the loop just continues. -/
def swarmStepCore (env : FetchEnv) (k : Nat) (d0 : Bool) (s1 : LoopState) : StepOut :=
  match s1.inflight with
  | [] =>
      .halt { final := { s1 with
                yields := s1.yields ++ s1.res.toList
                res := none
                logs := s1.logs ++ [mkLog d0 s1 none 0] } }
  | b :: bs =>
      if s1.inflight.length = k ∨ s1.reqDone then
        match env.result (raceAux env b bs).1 (raceAux env b bs).2 with
        | .error cause =>
            .halt { final := { s1 with
                      yields := s1.yields ++ s1.res.toList
                      res := none
                      winners := s1.winners ++ [raceAux env b bs]
                      logs := s1.logs ++
                        [mkLog d0 s1 (some (s1.inflight, raceAux env b bs))
                          s1.inflight.length] }
                    error := some { message := cause
                                    errId := some (raceAux env b bs).1
                                    errRequest := some (raceAux env b bs).2 } }
        | .ok resp =>
            .next { s1 with
              inflight := mapDelete s1.inflight (raceAux env b bs).1
              yields := s1.yields ++ s1.res.toList
              res := some { _id := (raceAux env b bs).1
                            request := (raceAux env b bs).2
                            response := resp }
              winners := s1.winners ++ [raceAux env b bs]
              logs := s1.logs ++
                [mkLog d0 s1 (some (s1.inflight, raceAux env b bs))
                  (mapDelete s1.inflight (raceAux env b bs).1).length] }
      else
        .next { s1 with logs := s1.logs ++ [mkLog d0 s1 none s1.inflight.length] }

/-- One full iteration of the while loop of Connection.swarm (src/index.js
lines 168-192): the pull phase followed by the decision part. -/
def swarmStep (env : FetchEnv) (k : Nat) (s : LoopState) : StepOut :=
  swarmStepCore env k s.reqDone (pullPhase s)

/-- The while loop, driven by a step budget; swarmRun always supplies enough
budget, and the budget-exhausted escape is marked in the result. -/
def swarmLoop (env : FetchEnv) (k : Nat) : Nat → LoopState → RunResult
  | 0, s => { final := s, fuelOut := true }
  | fuel + 1, s =>
      match swarmStep env k s with
      | .halt r => r
      | .next s2 => swarmLoop env k fuel s2

/-- The state of a swarm invocation on a fresh connection: iterator at the
start of the input, empty in-flight map, id counter at 1. -/
def initLoopState (requests : List Request) : LoopState :=
  { remaining := requests
    reqDone := false
    res := none
    inflight := []
    uniq := 1
    nextCalls := 0
    attempts := 0
    yields := []
    winners := []
    logs := [] }

/-- Termination measure of the loop: each iteration either consumes an input
element, flips the done flag, or shrinks the in-flight map. -/
def measure (s : LoopState) : Nat :=
  2 * s.remaining.length + (if s.reqDone then 0 else 1) + s.inflight.length

/-- A full swarm run on a fresh connection with concurrency k. -/
def swarmRun (env : FetchEnv) (k : Nat) (requests : List Request) : RunResult :=
  swarmLoop env k (2 * requests.length + 2) (initLoopState requests)

/-- The options record of Connection.swarm (src/index.js line 160): the
documented ordered flag, default false. -/
structure SwarmOptions where
  ordered : Bool := false
deriving DecidableEq, Repr

/-- Connection.swarm (src/index.js lines 163-193). Of the connection
configuration the loop body reads only the concurrency field; the options
parameter, the retry field and the timeoutMs field are never read by the
body. The minMsBetweenRequests field only shifts dispatch (hence settle)
times inside Connection.bundle, which the environment accounts for. -/
def Connection.swarm (c : Connection) (env : FetchEnv) (requests : List Request)
    (_options : SwarmOptions) : RunResult :=
  swarmRun env c.concurrency requests

/-! Helper lemmas about the race and map primitives. -/

theorem raceAux_mem (env : FetchEnv) (b : Nat × Request) (l : List (Nat × Request)) :
    raceAux env b l ∈ b :: l := by
  induction l generalizing b with
  | nil => simp [raceAux]
  | cons c cs ih =>
      simp only [raceAux]
      split
      · rcases List.mem_cons.mp (ih c) with h1 | h1
        · exact List.mem_cons.mpr (Or.inr (List.mem_cons.mpr (Or.inl h1)))
        · exact List.mem_cons.mpr (Or.inr (List.mem_cons.mpr (Or.inr h1)))
      · rcases List.mem_cons.mp (ih b) with h1 | h1
        · exact List.mem_cons.mpr (Or.inl h1)
        · exact List.mem_cons.mpr (Or.inr (List.mem_cons.mpr (Or.inr h1)))

theorem raceAux_min (env : FetchEnv) (b : Nat × Request) (l : List (Nat × Request)) :
    ∀ x ∈ b :: l,
      env.settle (raceAux env b l).1 (raceAux env b l).2 ≤ env.settle x.1 x.2 := by
  induction l generalizing b with
  | nil =>
      intro x hx
      rcases List.mem_cons.mp hx with h | h
      · rw [h]; simp [raceAux]
      · cases h
  | cons c cs ih =>
      intro x hx
      simp only [raceAux]
      split
      case isTrue hlt =>
        rcases List.mem_cons.mp hx with hxb | hxc
        · rw [hxb]
          have h1 := ih c c (List.mem_cons_self c cs)
          omega
        · rcases List.mem_cons.mp hxc with hxc1 | hxc2
          · rw [hxc1]
            exact ih c c (List.mem_cons_self c cs)
          · exact ih c x (List.mem_cons.mpr (Or.inr hxc2))
      case isFalse hlt =>
        rcases List.mem_cons.mp hx with hxb | hxc
        · rw [hxb]
          exact ih b b (List.mem_cons_self b cs)
        · rcases List.mem_cons.mp hxc with hxc1 | hxc2
          · rw [hxc1]
            have h1 := ih b b (List.mem_cons_self b cs)
            omega
          · exact ih b x (List.mem_cons.mpr (Or.inr hxc2))

theorem mapSet_length_le (m : List (Nat × Request)) (k : Nat) (v : Request) :
    (mapSet m k v).length ≤ m.length + 1 := by
  unfold mapSet
  split
  · simp
  · simp

theorem mapSet_keys_nodup (m : List (Nat × Request)) (k : Nat) (v : Request)
    (h : (m.map Prod.fst).Nodup) : ((mapSet m k v).map Prod.fst).Nodup := by
  unfold mapSet
  split
  case isTrue hk =>
      have heq : (m.map (fun p => if p.1 = k then (k, v) else p)).map Prod.fst
          = m.map Prod.fst := by
        rw [List.map_map]
        apply List.map_congr_left
        intro p _
        by_cases hpk : p.1 = k
        · simp [hpk]
        · simp [hpk]
      rw [heq]; exact h
  case isFalse hk =>
      rw [List.map_append]
      rw [List.nodup_append]
      refine ⟨h, List.nodup_singleton k, ?_⟩
      intro a ha hak
      have hak2 : a = k := by simpa using hak
      subst hak2
      rcases List.mem_map.mp ha with ⟨p, hp, hpa⟩
      exact hk (List.any_eq_true.mpr ⟨p, hp, by simp [hpa]⟩)

theorem mapDelete_length_le (m : List (Nat × Request)) (k : Nat) :
    (mapDelete m k).length ≤ m.length :=
  List.length_filter_le _ m

theorem mapDelete_length_lt (m : List (Nat × Request)) (x : Nat × Request)
    (hx : x ∈ m) : (mapDelete m x.1).length < m.length := by
  induction m with
  | nil => cases hx
  | cons a as ih =>
      rcases List.mem_cons.mp hx with h | h
      · have hhead : mapDelete (a :: as) x.1 = mapDelete as x.1 := by
          simp [mapDelete, h]
        rw [hhead]
        have := mapDelete_length_le as x.1
        simp only [List.length_cons]
        omega
      · by_cases hax : a.1 = x.1
        · have hhead : mapDelete (a :: as) x.1 = mapDelete as x.1 := by
            simp [mapDelete, hax]
          rw [hhead]
          have := mapDelete_length_le as x.1
          simp only [List.length_cons]
          omega
        · have hhead : mapDelete (a :: as) x.1 = a :: mapDelete as x.1 := by
            simp [mapDelete, hax]
          rw [hhead]
          have := ih h
          simp only [List.length_cons]
          omega

theorem mapDelete_keys_nodup (m : List (Nat × Request)) (k : Nat)
    (h : (m.map Prod.fst).Nodup) : ((mapDelete m k).map Prod.fst).Nodup := by
  have hsub : List.Sublist ((mapDelete m k).map Prod.fst) (m.map Prod.fst) :=
    List.Sublist.map Prod.fst (List.filter_sublist m)
  exact List.Nodup.sublist hsub h

/-! Helper lemmas about the pull phase, the step measure, and the loop. -/

theorem pullPhase_reqDone_of_done (s : LoopState) (h : s.reqDone = true) :
    pullPhase s = s := by
  unfold pullPhase
  rw [h]
  simp

theorem pullPhase_inflight_le (s : LoopState) :
    (pullPhase s).inflight.length ≤ s.inflight.length + 1 := by
  unfold pullPhase
  split
  · omega
  · split
    · simp
    · simpa using mapSet_length_le s.inflight (nextBundleId s.uniq).1 _

theorem pullPhase_measure_le (s : LoopState) : measure (pullPhase s) ≤ measure s := by
  by_cases hd : s.reqDone = true
  · rw [pullPhase_reqDone_of_done s hd]
  · have hd2 : s.reqDone = false := by
      cases hb : s.reqDone
      · rfl
      · exact absurd hb hd
    unfold pullPhase
    rw [hd2]
    simp only [Bool.false_eq_true, if_false]
    split
    next heq =>
      simp only [measure, heq, hd2]
      simp
    next r rest heq =>
      have h1 := mapSet_length_le s.inflight (nextBundleId s.uniq).1 r
      have h2 : s.remaining.length = rest.length + 1 := by rw [heq]; rfl
      simp only [measure, hd2]
      simp only [h2]
      simp
      omega

theorem pullPhase_measure_lt (s : LoopState) (h : s.reqDone = false) :
    measure (pullPhase s) < measure s := by
  unfold pullPhase
  rw [h]
  simp only [Bool.false_eq_true, if_false]
  split
  case h_1 heq =>
    simp only [measure, heq, h]
    simp
  case h_2 r rest heq =>
    have h1 := mapSet_length_le s.inflight (nextBundleId s.uniq).1 r
    have h2 : s.remaining.length = rest.length + 1 := by rw [heq]; rfl
    simp only [measure, h]
    simp only [h2]
    simp
    omega

theorem swarmStepCore_next_measure (env : FetchEnv) (k : Nat) (d0 : Bool)
    (s1 s2 : LoopState) (h : swarmStepCore env k d0 s1 = .next s2) :
    measure s2 < measure s1 ∨ (measure s2 = measure s1 ∧ s1.reqDone = false) := by
  unfold swarmStepCore at h
  split at h
  · cases h
  case h_2 b bs heq =>
    split at h
    case isTrue hcond =>
      split at h
      · cases h
      case h_2 resp hres =>
        cases h
        have hw : raceAux env b bs ∈ s1.inflight := by
          rw [heq]; exact raceAux_mem env b bs
        have hdel := mapDelete_length_lt s1.inflight (raceAux env b bs) hw
        left
        simp only [measure]
        simp
        omega
    case isFalse hcond =>
      cases h
      right
      constructor
      · simp [measure]
      · cases hb : s1.reqDone
        · rfl
        · exact absurd (Or.inr hb) hcond

theorem swarmStep_next_measure (env : FetchEnv) (k : Nat) (s s2 : LoopState)
    (h : swarmStep env k s = .next s2) : measure s2 < measure s := by
  unfold swarmStep at h
  have hcore := swarmStepCore_next_measure env k s.reqDone (pullPhase s) s2 h
  have hle := pullPhase_measure_le s
  rcases hcore with h1 | ⟨h1, h2⟩
  · omega
  · have hd : s.reqDone = false := by
      by_contra hd
      have hd2 : s.reqDone = true := by
        cases hb : s.reqDone
        · exact absurd hb hd
        · rfl
      rw [pullPhase_reqDone_of_done s hd2] at h2
      rw [hd2] at h2
      cases h2
    have := pullPhase_measure_lt s hd
    omega

theorem swarmStep_halt_fuelOut (env : FetchEnv) (k : Nat) (s : LoopState)
    (r : RunResult) (h : swarmStep env k s = .halt r) : r.fuelOut = false := by
  unfold swarmStep swarmStepCore at h
  split at h
  · cases h; rfl
  · split at h
    case isTrue hcond =>
      split at h
      · cases h; rfl
      · cases h
    case isFalse hcond => cases h

/-- Generic invariant scheme for the loop: an invariant preserved by every
continuing step and implying the goal at every halting step carries to the
result of any run. -/
theorem swarmLoop_invariant (env : FetchEnv) (k : Nat) (Inv : LoopState → Prop)
    (Good : RunResult → Prop)
    (hhalt : ∀ s r, Inv s → swarmStep env k s = .halt r → Good r)
    (hnext : ∀ s s2, Inv s → swarmStep env k s = .next s2 → Inv s2)
    (hstop : ∀ s, Inv s → Good { final := s, error := none, fuelOut := true }) :
    ∀ fuel s, Inv s → Good (swarmLoop env k fuel s) := by
  intro fuel
  induction fuel with
  | zero => intro s hs; exact hstop s hs
  | succ n ih =>
      intro s hs
      simp only [swarmLoop]
      cases hstep : swarmStep env k s with
      | halt r => exact hhalt s r hs hstep
      | next s2 => exact ih s2 (hnext s s2 hs hstep)

theorem swarmLoop_fuelOut (env : FetchEnv) (k : Nat) :
    ∀ fuel s, measure s < fuel → (swarmLoop env k fuel s).fuelOut = false := by
  intro fuel
  induction fuel with
  | zero => intro s hs; omega
  | succ n ih =>
      intro s hs
      simp only [swarmLoop]
      cases hstep : swarmStep env k s with
      | halt r => exact swarmStep_halt_fuelOut env k s r hstep
      | next s2 =>
          have hm := swarmStep_next_measure env k s s2 hstep
          exact ih s2 (by omega)

theorem swarmRun_fuelOut (env : FetchEnv) (k : Nat) (requests : List Request) :
    (swarmRun env k requests).fuelOut = false := by
  apply swarmLoop_fuelOut
  simp [measure, initLoopState]

theorem pullPhase_logs (s : LoopState) : (pullPhase s).logs = s.logs := by
  unfold pullPhase
  split
  · rfl
  · split <;> rfl

theorem pullPhase_yields (s : LoopState) : (pullPhase s).yields = s.yields := by
  unfold pullPhase
  split
  · rfl
  · split <;> rfl

theorem pullPhase_winners (s : LoopState) : (pullPhase s).winners = s.winners := by
  unfold pullPhase
  split
  · rfl
  · split <;> rfl

theorem pullPhase_res (s : LoopState) : (pullPhase s).res = s.res := by
  unfold pullPhase
  split
  · rfl
  · split <;> rfl

theorem pullPhase_reqDone_mono (s : LoopState) (h : s.reqDone = true) :
    (pullPhase s).reqDone = true := by
  rw [pullPhase_reqDone_of_done s h]
  exact h

theorem pullPhase_keys_nodup (s : LoopState)
    (h : (s.inflight.map Prod.fst).Nodup) :
    ((pullPhase s).inflight.map Prod.fst).Nodup := by
  unfold pullPhase
  split
  · exact h
  · split
    · exact h
    · exact mapSet_keys_nodup s.inflight (nextBundleId s.uniq).1 _ h

/-! Shared concrete objects for evaluating the model. -/

/-- A transport environment in which the bundle for request 2 settles at 300,
every other bundle settles at 400, and every fetch resolves. -/
def envTwoFast : FetchEnv :=
  { settle := fun _ r => if r = 2 then 300 else 400
    result := fun _ r => .ok (r + 100) }

/-- A transport environment in which the bundle for request 9 rejects with
cause 7 settling at 100, and every other bundle resolves settling at 400. -/
def envNineFails : FetchEnv :=
  { settle := fun _ r => if r = 9 then 100 else 400
    result := fun _ r => if r = 9 then .error 7 else .ok (r + 100) }

/-- The default configuration produced by Connection.create with no
options. -/
def defaultConn : Connection :=
  { concurrency := 2, minMsBetweenRequests := 150, timeoutMs := 0, retry := 0 }

/-- A placeholder log record used to pick elements out of concrete logs. -/
def dLog : StepLog :=
  { doneAtStart := false
    pulled := false
    sizeAfterAdmit := 0
    keysAfterAdmit := []
    raceSnapshot := none
    sizeAtEnd := 0 }

/-! Run-wide invariant: the in-flight size bound (claim C1). -/

theorem swarmLoop_size_bound (env : FetchEnv) (k : Nat) :
    ∀ fuel s, s.inflight.length < k →
      (∀ e ∈ s.logs, e.sizeAfterAdmit ≤ k ∧ e.sizeAtEnd ≤ k) →
      ∀ e ∈ (swarmLoop env k fuel s).final.logs,
        e.sizeAfterAdmit ≤ k ∧ e.sizeAtEnd ≤ k := by
  intro fuel s h1 h2
  refine swarmLoop_invariant env k
    (fun s => s.inflight.length < k ∧
      ∀ e ∈ s.logs, e.sizeAfterAdmit ≤ k ∧ e.sizeAtEnd ≤ k)
    (fun r => ∀ e ∈ r.final.logs, e.sizeAfterAdmit ≤ k ∧ e.sizeAtEnd ≤ k)
    ?hhalt ?hnext ?hstop fuel s ⟨h1, h2⟩
  case hstop =>
    intro s hs
    exact hs.2
  case hhalt =>
    intro s r hs hstep
    have hlen1 : (pullPhase s).inflight.length ≤ k := by
      have := pullPhase_inflight_le s
      omega
    unfold swarmStep swarmStepCore at hstep
    split at hstep
    case h_1 heq =>
      cases hstep
      intro e he
      simp only [pullPhase_logs, List.mem_append, List.mem_singleton] at he
      rcases he with he | he
      · exact hs.2 e he
      · rw [he]
        simp [mkLog, heq]
    case h_2 b bs heq =>
      split at hstep
      case isTrue hcond =>
        split at hstep
        case h_1 cause hres =>
          cases hstep
          intro e he
          simp only [pullPhase_logs, List.mem_append, List.mem_singleton] at he
          rcases he with he | he
          · exact hs.2 e he
          · rw [he]
            simp [mkLog]
            omega
        case h_2 resp hres => cases hstep
      case isFalse hcond => cases hstep
  case hnext =>
    intro s s2 hs hstep
    have hlen1 : (pullPhase s).inflight.length ≤ k := by
      have := pullPhase_inflight_le s
      omega
    unfold swarmStep swarmStepCore at hstep
    split at hstep
    case h_1 heq => cases hstep
    case h_2 b bs heq =>
      split at hstep
      case isTrue hcond =>
        split at hstep
        case h_1 cause hres => cases hstep
        case h_2 resp hres =>
          cases hstep
          have hw : raceAux env b bs ∈ (pullPhase s).inflight := by
            rw [heq]
            exact raceAux_mem env b bs
          have hdel := mapDelete_length_lt (pullPhase s).inflight (raceAux env b bs) hw
          constructor
          · simp
            omega
          · intro e he
            simp only [pullPhase_logs, List.mem_append, List.mem_singleton] at he
            rcases he with he | he
            · exact hs.2 e he
            · rw [he]
              simp [mkLog]
              omega
      case isFalse hcond =>
        cases hstep
        have hne : ¬ (pullPhase s).inflight.length = k := fun hc => hcond (Or.inl hc)
        constructor
        · simp
          omega
        · intro e he
          simp only [pullPhase_logs, List.mem_append, List.mem_singleton] at he
          rcases he with he | he
          · exact hs.2 e he
          · rw [he]
            simp [mkLog]
            omega

/-- C1: for every concurrency value k >= 1 and every finite input sequence,
at no point during a single run of swarm does the size of the in-flight map
exceed k. The per-iteration logs record the map size at every point it
changes: after each admission (sizeAfterAdmit, the local maximum of the
iteration) and after each eviction (sizeAtEnd); the size between iterations
is sizeAtEnd of the previous log, and before the first it is 0 <= k. -/
theorem C1_inflight_never_exceeds_concurrency (env : FetchEnv) (c : Connection)
    (requests : List Request) (options : SwarmOptions) (hk : 1 ≤ c.concurrency) :
    ∀ e ∈ (Connection.swarm c env requests options).final.logs,
      e.sizeAfterAdmit ≤ c.concurrency ∧ e.sizeAtEnd ≤ c.concurrency := by
  unfold Connection.swarm swarmRun
  apply swarmLoop_size_bound
  · simp [initLoopState]
    omega
  · intro e he
    simp [initLoopState] at he

/-- Witness for C1: the size bound evaluated on a concrete two-request run
with the default concurrency 2. -/
theorem C1_witness :
    1 ≤ defaultConn.concurrency ∧
      ((Connection.swarm defaultConn envTwoFast [1, 2]
          { ordered := false }).final.logs.headD dLog).sizeAfterAdmit
        ≤ defaultConn.concurrency := by
  refine ⟨by decide, ?_⟩
  exact (C1_inflight_never_exceeds_concurrency envTwoFast defaultConn [1, 2]
    { ordered := false } (by decide) _ (by decide)).1

/-! Run-wide invariant: distinct keys in the in-flight map (claim C9). -/

theorem swarmLoop_keys_nodup (env : FetchEnv) (k : Nat) :
    ∀ fuel s, (s.inflight.map Prod.fst).Nodup →
      (∀ e ∈ s.logs, e.keysAfterAdmit.Nodup) →
      ∀ e ∈ (swarmLoop env k fuel s).final.logs, e.keysAfterAdmit.Nodup := by
  intro fuel s h1 h2
  refine swarmLoop_invariant env k
    (fun s => (s.inflight.map Prod.fst).Nodup ∧ ∀ e ∈ s.logs, e.keysAfterAdmit.Nodup)
    (fun r => ∀ e ∈ r.final.logs, e.keysAfterAdmit.Nodup)
    ?hhalt ?hnext ?hstop fuel s ⟨h1, h2⟩
  case hstop =>
    intro s hs
    exact hs.2
  case hhalt =>
    intro s r hs hstep
    have hn1 : ((pullPhase s).inflight.map Prod.fst).Nodup := pullPhase_keys_nodup s hs.1
    unfold swarmStep swarmStepCore at hstep
    split at hstep
    case h_1 heq =>
      cases hstep
      intro e he
      simp only [pullPhase_logs, List.mem_append, List.mem_singleton] at he
      rcases he with he | he
      · exact hs.2 e he
      · rw [he]
        simp [mkLog, heq]
    case h_2 b bs heq =>
      split at hstep
      case isTrue hcond =>
        split at hstep
        case h_1 cause hres =>
          cases hstep
          intro e he
          simp only [pullPhase_logs, List.mem_append, List.mem_singleton] at he
          rcases he with he | he
          · exact hs.2 e he
          · rw [he]
            simpa [mkLog] using hn1
        case h_2 resp hres => cases hstep
      case isFalse hcond => cases hstep
  case hnext =>
    intro s s2 hs hstep
    have hn1 : ((pullPhase s).inflight.map Prod.fst).Nodup := pullPhase_keys_nodup s hs.1
    unfold swarmStep swarmStepCore at hstep
    split at hstep
    case h_1 heq => cases hstep
    case h_2 b bs heq =>
      split at hstep
      case isTrue hcond =>
        split at hstep
        case h_1 cause hres => cases hstep
        case h_2 resp hres =>
          cases hstep
          refine ⟨?_, ?_⟩
          · simpa using mapDelete_keys_nodup (pullPhase s).inflight _ hn1
          · intro e he
            simp only [pullPhase_logs, List.mem_append, List.mem_singleton] at he
            rcases he with he | he
            · exact hs.2 e he
            · rw [he]
              simpa [mkLog] using hn1
      case isFalse hcond =>
        cases hstep
        refine ⟨?_, ?_⟩
        · simpa using hn1
        · intro e he
          simp only [pullPhase_logs, List.mem_append, List.mem_singleton] at he
          rcases he with he | he
          · exact hs.2 e he
          · rw [he]
            simpa [mkLog] using hn1

/-- C9: bundle ids come from the per-connection counter, which increases by
one per bundle and wraps back to 1 just before reaching
Number.MAX_SAFE_INTEGER (so the sentinel value is never assigned and the
counter stays in [1, MAX_SAFE_INTEGER)), and at every point of every swarm
run the keys of the in-flight map are pairwise distinct. -/
theorem C9_bundle_ids :
    (∀ u, 1 ≤ u → u < MAX_SAFE_INTEGER →
      (nextBundleId u).1 = u ∧
      (nextBundleId u).1 ≠ MAX_SAFE_INTEGER ∧
      ((u + 1 ≠ MAX_SAFE_INTEGER ∧ (nextBundleId u).2 = u + 1) ∨
        (u + 1 = MAX_SAFE_INTEGER ∧ (nextBundleId u).2 = 1)) ∧
      1 ≤ (nextBundleId u).2 ∧ (nextBundleId u).2 < MAX_SAFE_INTEGER) ∧
    (∀ (env : FetchEnv) (c : Connection) (requests : List Request)
        (options : SwarmOptions),
      ∀ e ∈ (Connection.swarm c env requests options).final.logs,
        e.keysAfterAdmit.Nodup) := by
  constructor
  · intro u h1 h2
    have hmsi : 2 ≤ MAX_SAFE_INTEGER := by
      unfold MAX_SAFE_INTEGER
      omega
    have h1v : (nextBundleId u).1 = u := rfl
    by_cases h : u + 1 = MAX_SAFE_INTEGER
    · have h2v : (nextBundleId u).2 = 1 := by
        unfold nextBundleId
        simp [h]
      refine ⟨h1v, ?_, Or.inr ⟨h, h2v⟩, ?_, ?_⟩
      · rw [h1v]; omega
      · rw [h2v]
      · rw [h2v]; omega
    · have h2v : (nextBundleId u).2 = u + 1 := by
        unfold nextBundleId
        simp [h]
      refine ⟨h1v, ?_, Or.inl ⟨h, h2v⟩, ?_, ?_⟩
      · rw [h1v]; omega
      · rw [h2v]; omega
      · rw [h2v]; omega
  · intro env c requests options
    unfold Connection.swarm swarmRun
    apply swarmLoop_keys_nodup
    · simp [initLoopState]
    · intro e he
      simp [initLoopState] at he

/-- Witness for C9: the counter facts at the concrete value 5, and key
distinctness at a concrete log entry of a concrete run. -/
theorem C9_witness :
    (nextBundleId 5).1 = 5 ∧
      ((Connection.swarm defaultConn envTwoFast [1, 2]
          { ordered := false }).final.logs.headD dLog).keysAfterAdmit.Nodup := by
  constructor
  · exact (C9_bundle_ids.1 5 (by decide) (by decide)).1
  · exact C9_bundle_ids.2 envTwoFast defaultConn [1, 2] { ordered := false } _ (by decide)

/-! Run-wide invariants: iterator discipline (claim C10). -/

/-- The pull budget: next() calls made so far plus the calls the iterator
can still receive (one per remaining element plus the final done report). -/
def pullBudget (s : LoopState) : Nat :=
  s.nextCalls + s.remaining.length + (if s.reqDone then 0 else 1)

theorem pullPhase_pullBudget (s : LoopState) : pullBudget (pullPhase s) = pullBudget s := by
  unfold pullPhase
  split
  · rfl
  case isFalse hd =>
    have hd2 : s.reqDone = false := by
      cases hb : s.reqDone
      · rfl
      · exact absurd hb hd
    split
    next heq =>
      simp [pullBudget, heq, hd2]
    next r rest heq =>
      have h2 : s.remaining.length = rest.length + 1 := by rw [heq]; rfl
      simp [pullBudget, h2, hd2]
      omega

theorem swarmStepCore_next_frame (env : FetchEnv) (k : Nat) (d0 : Bool)
    (s1 s2 : LoopState) (h : swarmStepCore env k d0 s1 = .next s2) :
    s2.remaining = s1.remaining ∧ s2.reqDone = s1.reqDone ∧
      s2.nextCalls = s1.nextCalls ∧ s2.attempts = s1.attempts ∧
      s2.uniq = s1.uniq := by
  unfold swarmStepCore at h
  split at h
  · cases h
  · split at h
    case isTrue hcond =>
      split at h
      · cases h
      · cases h
        exact ⟨rfl, rfl, rfl, rfl, rfl⟩
    case isFalse hcond =>
      cases h
      exact ⟨rfl, rfl, rfl, rfl, rfl⟩

theorem swarmStepCore_halt_frame (env : FetchEnv) (k : Nat) (d0 : Bool)
    (s1 : LoopState) (r : RunResult) (h : swarmStepCore env k d0 s1 = .halt r) :
    r.final.remaining = s1.remaining ∧ r.final.reqDone = s1.reqDone ∧
      r.final.nextCalls = s1.nextCalls ∧ r.final.attempts = s1.attempts := by
  unfold swarmStepCore at h
  split at h
  · cases h
    exact ⟨rfl, rfl, rfl, rfl⟩
  · split at h
    case isTrue hcond =>
      split at h
      · cases h
        exact ⟨rfl, rfl, rfl, rfl⟩
      · cases h
    case isFalse hcond => cases h

theorem swarmLoop_nextCalls_le (env : FetchEnv) (k : Nat) (N : Nat) :
    ∀ fuel s, pullBudget s ≤ N →
      (swarmLoop env k fuel s).final.nextCalls ≤ N := by
  intro fuel s h0
  refine swarmLoop_invariant env k (fun s => pullBudget s ≤ N)
    (fun r => r.final.nextCalls ≤ N) ?hhalt ?hnext ?hstop fuel s h0
  case hstop =>
    intro s hs
    unfold pullBudget at hs
    show s.nextCalls ≤ N
    omega
  case hhalt =>
    intro s r hs hstep
    unfold swarmStep at hstep
    have hfr := swarmStepCore_halt_frame env k s.reqDone (pullPhase s) r hstep
    have hb := pullPhase_pullBudget s
    unfold pullBudget at *
    omega
  case hnext =>
    intro s s2 hs hstep
    unfold swarmStep at hstep
    have hfr := swarmStepCore_next_frame env k s.reqDone (pullPhase s) s2 hstep
    have hb := pullPhase_pullBudget s
    rcases hfr with ⟨h1, h2, h3, h4, h5⟩
    unfold pullBudget at *
    rw [h1, h2, h3]
    omega

/-- Extending a log list by one entry whose done flag is the current done
flag preserves the iterator-discipline facts. -/
theorem logsExtend (L : List StepLog) (entry : StepLog) (d : Bool)
    (hp : ∀ e ∈ L, e.pulled = !e.doneAtStart)
    (hpair : L.Pairwise (fun a b => a.doneAtStart = true → b.doneAtStart = true))
    (hdone : ∀ e ∈ L, e.doneAtStart = true → d = true)
    (hentryP : entry.pulled = !entry.doneAtStart)
    (hentryD : entry.doneAtStart = d) :
    (∀ e ∈ L ++ [entry], e.pulled = !e.doneAtStart) ∧
      (L ++ [entry]).Pairwise (fun a b => a.doneAtStart = true → b.doneAtStart = true) ∧
      (∀ e ∈ L ++ [entry], e.doneAtStart = true → d = true) := by
  refine ⟨?_, ?_, ?_⟩
  · intro e he
    rcases List.mem_append.mp he with he | he
    · exact hp e he
    · rw [List.mem_singleton.mp he]
      exact hentryP
  · rw [List.pairwise_append]
    refine ⟨hpair, List.pairwise_singleton _ _, ?_⟩
    intro a ha b hb hda
    rw [List.mem_singleton.mp hb, hentryD]
    exact hdone a ha hda
  · intro e he
    rcases List.mem_append.mp he with he | he
    · exact hdone e he
    · rw [List.mem_singleton.mp he, hentryD]
      exact fun hd => hd

theorem swarmLoop_iterator_logs (env : FetchEnv) (k : Nat) :
    ∀ fuel s,
      (∀ e ∈ s.logs, e.pulled = !e.doneAtStart) →
      s.logs.Pairwise (fun a b => a.doneAtStart = true → b.doneAtStart = true) →
      (∀ e ∈ s.logs, e.doneAtStart = true → s.reqDone = true) →
      (∀ e ∈ (swarmLoop env k fuel s).final.logs, e.pulled = !e.doneAtStart) ∧
        (swarmLoop env k fuel s).final.logs.Pairwise
          (fun a b => a.doneAtStart = true → b.doneAtStart = true) := by
  intro fuel s h1 h2 h3
  refine swarmLoop_invariant env k
    (fun s => (∀ e ∈ s.logs, e.pulled = !e.doneAtStart) ∧
      s.logs.Pairwise (fun a b => a.doneAtStart = true → b.doneAtStart = true) ∧
      (∀ e ∈ s.logs, e.doneAtStart = true → s.reqDone = true))
    (fun r => (∀ e ∈ r.final.logs, e.pulled = !e.doneAtStart) ∧
      r.final.logs.Pairwise (fun a b => a.doneAtStart = true → b.doneAtStart = true))
    ?hhalt ?hnext ?hstop fuel s ⟨h1, h2, h3⟩
  case hstop =>
    intro s hs
    exact ⟨hs.1, hs.2.1⟩
  case hhalt =>
    intro s r hs hstep
    unfold swarmStep swarmStepCore at hstep
    split at hstep
    case h_1 heq =>
      cases hstep
      have hext := logsExtend s.logs (mkLog s.reqDone (pullPhase s) none 0) s.reqDone
        hs.1 hs.2.1 hs.2.2 rfl rfl
      refine ⟨?_, ?_⟩
      · intro e he
        simp only [pullPhase_logs] at he
        exact hext.1 e he
      · simp only [pullPhase_logs]
        exact hext.2.1
    case h_2 b bs heq =>
      split at hstep
      case isTrue hcond =>
        split at hstep
        case h_1 cause hres =>
          cases hstep
          have hext := logsExtend s.logs
            (mkLog s.reqDone (pullPhase s)
              (some ((pullPhase s).inflight, raceAux env b bs))
              (pullPhase s).inflight.length) s.reqDone
            hs.1 hs.2.1 hs.2.2 rfl rfl
          refine ⟨?_, ?_⟩
          · intro e he
            simp only [pullPhase_logs] at he
            exact hext.1 e he
          · simp only [pullPhase_logs]
            exact hext.2.1
        case h_2 resp hres => cases hstep
      case isFalse hcond => cases hstep
  case hnext =>
    intro s s2 hs hstep
    have hmono : s.reqDone = true → (pullPhase s).reqDone = true :=
      fun hd => pullPhase_reqDone_mono s hd
    unfold swarmStep swarmStepCore at hstep
    split at hstep
    case h_1 heq => cases hstep
    case h_2 b bs heq =>
      split at hstep
      case isTrue hcond =>
        split at hstep
        case h_1 cause hres => cases hstep
        case h_2 resp hres =>
          cases hstep
          have hext := logsExtend s.logs
            (mkLog s.reqDone (pullPhase s)
              (some ((pullPhase s).inflight, raceAux env b bs))
              (mapDelete (pullPhase s).inflight (raceAux env b bs).1).length) s.reqDone
            hs.1 hs.2.1 hs.2.2 rfl rfl
          refine ⟨?_, ?_, ?_⟩
          · intro e he
            simp only [pullPhase_logs] at he
            exact hext.1 e he
          · simp only [pullPhase_logs]
            exact hext.2.1
          · intro e he hed
            simp only [pullPhase_logs] at he
            exact hmono (hext.2.2 e he hed)
      case isFalse hcond =>
        cases hstep
        have hext := logsExtend s.logs
          (mkLog s.reqDone (pullPhase s) none (pullPhase s).inflight.length) s.reqDone
          hs.1 hs.2.1 hs.2.2 rfl rfl
        refine ⟨?_, ?_, ?_⟩
        · intro e he
          simp only [pullPhase_logs] at he
          exact hext.1 e he
        · simp only [pullPhase_logs]
          exact hext.2.1
        · intro e he hed
          simp only [pullPhase_logs] at he
          exact hmono (hext.2.2 e he hed)

/-- C10: during every run of swarm the input iterator is invoked at most
once per loop iteration (each log records whether its iteration pulled, and
an iteration pulls exactly when the done flag was not yet set at its start),
the done flag is monotone across iterations (so next() is never invoked
again after it first reports done), and the total number of next()
invocations is at most the input length plus one (the call that observes
done), so the input is consumed at most once and pulled no further than the
scheduler needs. -/
theorem C10_iterator_discipline (env : FetchEnv) (c : Connection)
    (requests : List Request) (options : SwarmOptions) :
    (∀ e ∈ (Connection.swarm c env requests options).final.logs,
      e.pulled = !e.doneAtStart) ∧
      (Connection.swarm c env requests options).final.logs.Pairwise
        (fun a b => a.doneAtStart = true → b.doneAtStart = true) ∧
      (Connection.swarm c env requests options).final.nextCalls
        ≤ requests.length + 1 := by
  unfold Connection.swarm swarmRun
  have h1 := swarmLoop_iterator_logs env c.concurrency
    (2 * requests.length + 2) (initLoopState requests)
    (by intro e he; simp [initLoopState] at he)
    (by simp [initLoopState])
    (by intro e he; simp [initLoopState] at he)
  refine ⟨h1.1, h1.2, ?_⟩
  apply swarmLoop_nextCalls_le
  simp [pullBudget, initLoopState]

/-- Witness for C10: the discipline facts evaluated on a concrete run. -/
theorem C10_witness :
    ((Connection.swarm defaultConn envTwoFast [1, 2]
        { ordered := false }).final.logs.headD dLog).pulled
      = !((Connection.swarm defaultConn envTwoFast [1, 2]
        { ordered := false }).final.logs.headD dLog).doneAtStart ∧
      (Connection.swarm defaultConn envTwoFast [1, 2]
        { ordered := false }).final.nextCalls ≤ [1, 2].length + 1 := by
  have h := C10_iterator_discipline envTwoFast defaultConn [1, 2] { ordered := false }
  exact ⟨h.1 _ (by decide), h.2.2⟩

/-! Run-wide invariants: failure semantics (claim C2) and completion order
(claim C6). -/

theorem swarmLoop_failure_semantics (env : FetchEnv) (k : Nat) :
    ∀ fuel s,
      (∀ x ∈ s.yields, env.result x._id x.request = .ok x.response) →
      (∀ x, s.res = some x → env.result x._id x.request = .ok x.response) →
      (∀ x ∈ (swarmLoop env k fuel s).final.yields,
        env.result x._id x.request = .ok x.response) ∧
        (∀ e id rq, (swarmLoop env k fuel s).error = some e → e.errId = some id →
          e.errRequest = some rq →
          env.result id rq = .error e.message ∧
            (id, rq) ∈ (swarmLoop env k fuel s).final.inflight) := by
  intro fuel s h1 h2
  refine swarmLoop_invariant env k
    (fun s => (∀ x ∈ s.yields, env.result x._id x.request = .ok x.response) ∧
      (∀ x, s.res = some x → env.result x._id x.request = .ok x.response))
    (fun r => (∀ x ∈ r.final.yields, env.result x._id x.request = .ok x.response) ∧
      (∀ e id rq, r.error = some e → e.errId = some id → e.errRequest = some rq →
        env.result id rq = .error e.message ∧ (id, rq) ∈ r.final.inflight))
    ?hhalt ?hnext ?hstop fuel s ⟨h1, h2⟩
  case hstop =>
    intro s hs
    refine ⟨hs.1, ?_⟩
    intro e id rq he
    simp at he
  case hhalt =>
    intro s r hs hstep
    have hy : ∀ x ∈ (pullPhase s).yields ++ (pullPhase s).res.toList,
        env.result x._id x.request = .ok x.response := by
      intro x hx
      rcases List.mem_append.mp hx with hx | hx
      · rw [pullPhase_yields] at hx
        exact hs.1 x hx
      · rw [pullPhase_res] at hx
        rcases Option.mem_toList.mp hx with hx2
        exact hs.2 x (Option.mem_def.mp hx2)
    unfold swarmStep swarmStepCore at hstep
    split at hstep
    case h_1 heq =>
      cases hstep
      refine ⟨hy, ?_⟩
      intro e id rq he
      simp at he
    case h_2 b bs heq =>
      split at hstep
      case isTrue hcond =>
        split at hstep
        case h_1 cause hres =>
          cases hstep
          refine ⟨hy, ?_⟩
          intro e id rq he hid hrq
          have he2 : e = { message := cause
                           errId := some (raceAux env b bs).1
                           errRequest := some (raceAux env b bs).2 } := by
            simpa using he.symm
          rw [he2] at hid hrq
          have hid2 : id = (raceAux env b bs).1 := by simpa using hid.symm
          have hrq2 : rq = (raceAux env b bs).2 := by simpa using hrq.symm
          rw [he2, hid2, hrq2]
          refine ⟨hres, ?_⟩
          show ((raceAux env b bs).1, (raceAux env b bs).2) ∈ (pullPhase s).inflight
          rw [Prod.mk.eta, heq]
          exact raceAux_mem env b bs
        case h_2 resp hres => cases hstep
      case isFalse hcond => cases hstep
  case hnext =>
    intro s s2 hs hstep
    have hy : ∀ x ∈ (pullPhase s).yields ++ (pullPhase s).res.toList,
        env.result x._id x.request = .ok x.response := by
      intro x hx
      rcases List.mem_append.mp hx with hx | hx
      · rw [pullPhase_yields] at hx
        exact hs.1 x hx
      · rw [pullPhase_res] at hx
        rcases Option.mem_toList.mp hx with hx2
        exact hs.2 x (Option.mem_def.mp hx2)
    unfold swarmStep swarmStepCore at hstep
    split at hstep
    case h_1 heq => cases hstep
    case h_2 b bs heq =>
      split at hstep
      case isTrue hcond =>
        split at hstep
        case h_1 cause hres => cases hstep
        case h_2 resp hres =>
          cases hstep
          refine ⟨hy, ?_⟩
          intro x hx
          have hx2 : x = { _id := (raceAux env b bs).1
                           request := (raceAux env b bs).2
                           response := resp } := by
            have := hx
            simp at this
            exact this.symm
          rw [hx2]
          exact hres
      case isFalse hcond =>
        cases hstep
        refine ⟨?_, ?_⟩
        · intro x hx
          rw [pullPhase_yields] at hx
          exact hs.1 x hx
        · intro x hx
          rw [pullPhase_res] at hx
          exact hs.2 x hx

/-- Counterexample to C2 as stated: on input [9, 1] where the transport call
for request 9 fails, the swarm run yields no outcome at all — the failure is
not surfaced inline as a Failure outcome, the outcome of the other admitted
request 1 is never yielded, and the generator instead terminates by raising
the transport error. -/
theorem C2_counterexample :
    (Connection.swarm defaultConn envNineFails [9, 1]
        { ordered := false }).error.isSome = true ∧
      (Connection.swarm defaultConn envNineFails [9, 1]
        { ordered := false }).final.yields = [] := by
  decide

/-- C2 amended: swarm never yields a Failure outcome — every yielded outcome
is a resolved transport response — and when a transport call fails the
awaited Promise.race rejects, so swarm raises the cause (tagged with the
failing bundle id and descriptor) and terminates the output sequence; the
failing bundle is left in the in-flight map and the outcomes of the other
in-flight bundles are abandoned, never yielded. -/
theorem C2_failure_raises (env : FetchEnv) (c : Connection)
    (requests : List Request) (options : SwarmOptions) :
    (∀ x ∈ (Connection.swarm c env requests options).final.yields,
      env.result x._id x.request = .ok x.response) ∧
      (∀ e id rq, (Connection.swarm c env requests options).error = some e →
        e.errId = some id → e.errRequest = some rq →
        env.result id rq = .error e.message ∧
          (id, rq) ∈ (Connection.swarm c env requests options).final.inflight) := by
  unfold Connection.swarm swarmRun
  apply swarmLoop_failure_semantics
  · intro x hx
    simp [initLoopState] at hx
  · intro x hx
    simp [initLoopState] at hx

/-- Witness for C2: the amended statement applied to concrete runs, with all
hypotheses discharged on concrete inputs. -/
theorem C2_witness :
    envTwoFast.result 2 2 = .ok 102 ∧
      envNineFails.result 1 9 = .error 7 ∧
      (1, 9) ∈ (Connection.swarm defaultConn envNineFails [9, 1]
        { ordered := false }).final.inflight := by
  refine ⟨?_, ?_⟩
  · exact (C2_failure_raises envTwoFast defaultConn [1, 2] { ordered := false }).1
      { _id := 2, request := 2, response := 102 } (by decide)
  · exact (C2_failure_raises envNineFails defaultConn [9, 1] { ordered := false }).2
      { message := 7, errId := some 1, errRequest := some 9 } 1 9 (by decide) rfl rfl

/-- C3 evaluation at the failing input: with retry configured to 2, a single
request whose transport call always fails is dispatched exactly once (not
three times) and the failure is raised immediately after that single
attempt — the retry configuration is never consulted by the loop. -/
theorem C3_retry_never_performed :
    (Connection.swarm { defaultConn with retry := 2 } envNineFails [9]
        { ordered := false }).final.attempts = 1 ∧
      (Connection.swarm { defaultConn with retry := 2 } envNineFails [9]
        { ordered := false }).error
        = some { message := 7, errId := some 1, errRequest := some 9 } := by
  decide

/-- Counterexample to C5 as stated: with ordered set to true on input
[1, 2], where the bundle for request 2 settles first, the yielded descriptor
order is [2, 1], not the input order [1, 2]. -/
theorem C5_counterexample :
    (Connection.swarm defaultConn envTwoFast [1, 2]
        { ordered := true }).final.yields.map (fun x => x.request) = [2, 1] ∧
      ([2, 1] : List Request) ≠ [1, 2] := by
  decide

/-- C5 amended: the options argument of swarm (including the documented
ordered flag) is never read by the loop body, so the run is identical for
every options value and outcomes are always delivered in completion order. -/
theorem C5_ordered_option_ignored (c : Connection) (env : FetchEnv)
    (requests : List Request) (o1 o2 : SwarmOptions) :
    Connection.swarm c env requests o1 = Connection.swarm c env requests o2 := rfl

/-- Counterexample to C7 as stated: an options record with the out-of-range
value concurrency = 0 does not make Connection.create fail with a
configuration error; create returns an instance carrying concurrency 0. -/
theorem C7_counterexample :
    Connection.create (some { concurrency := some 0 }) =
      .ok { concurrency := 0, minMsBetweenRequests := 150
            timeoutMs := 0, retry := 0 } := rfl

/-- C7 amended: Connection.create performs no range validation at all: for
every options record (in range or not) it returns a usable instance whose
fields are the supplied values where present and the documented defaults
(2, 150, 0, 0) otherwise. -/
theorem C7_create_no_validation (options : Option ConnOptions) :
    ∃ c : Connection, Connection.create options = .ok c ∧
      c.concurrency = (options.bind (fun o => o.concurrency)).getD 2 ∧
      c.minMsBetweenRequests = (options.bind (fun o => o.minMsBetweenRequests)).getD 150 ∧
      c.timeoutMs = (options.bind (fun o => o.timeoutMs)).getD 0 ∧
      c.retry = (options.bind (fun o => o.retry)).getD 0 :=
  ⟨_, rfl, rfl, rfl, rfl, rfl⟩

/-- C8: the Connection class exposes only getter accessors for the four
configuration fields, so every post-creation assignment to a field fails
with a TypeError (strict-mode assignment through a setterless accessor),
the object after the failed attempt is the very same connection, and the
value read back through the accessor is the value from creation; the
connection remains usable. -/
theorem C8_config_immutable (c : Connection) (f : ConfigField) (v : Nat) :
    (attemptAssign c f v).1 = .error .noSetter ∧
      (attemptAssign c f v).2 = c ∧
      getField (attemptAssign c f v).2 f = getField c f :=
  ⟨rfl, rfl, rfl⟩

theorem swarmLoop_yields_order (env : FetchEnv) (k : Nat) :
    ∀ fuel s,
      s.yields.map (fun x => (x._id, x.request))
          ++ s.res.toList.map (fun x => (x._id, x.request)) = s.winners →
      ((swarmLoop env k fuel s).error = none →
        (swarmLoop env k fuel s).fuelOut = false →
        (swarmLoop env k fuel s).final.yields.map (fun x => (x._id, x.request))
          = (swarmLoop env k fuel s).final.winners) := by
  intro fuel s h0
  refine swarmLoop_invariant env k
    (fun s => s.yields.map (fun x => (x._id, x.request))
      ++ s.res.toList.map (fun x => (x._id, x.request)) = s.winners)
    (fun r => r.error = none → r.fuelOut = false →
      r.final.yields.map (fun x => (x._id, x.request)) = r.final.winners)
    ?hhalt ?hnext ?hstop fuel s h0
  case hstop =>
    intro s hs h1 h2
    simp at h2
  case hhalt =>
    intro s r hs hstep
    have hinv : (pullPhase s).yields.map (fun x => (x._id, x.request))
        ++ (pullPhase s).res.toList.map (fun x => (x._id, x.request))
          = (pullPhase s).winners := by
      rw [pullPhase_yields, pullPhase_res, pullPhase_winners]
      exact hs
    unfold swarmStep swarmStepCore at hstep
    split at hstep
    case h_1 heq =>
      cases hstep
      intro h1 h2
      show ((pullPhase s).yields ++ (pullPhase s).res.toList).map
          (fun x => (x._id, x.request)) = (pullPhase s).winners
      rw [List.map_append]
      exact hinv
    case h_2 b bs heq =>
      split at hstep
      case isTrue hcond =>
        split at hstep
        case h_1 cause hres =>
          cases hstep
          intro h1 h2
          simp at h1
        case h_2 resp hres => cases hstep
      case isFalse hcond => cases hstep
  case hnext =>
    intro s s2 hs hstep
    have hinv : (pullPhase s).yields.map (fun x => (x._id, x.request))
        ++ (pullPhase s).res.toList.map (fun x => (x._id, x.request))
          = (pullPhase s).winners := by
      rw [pullPhase_yields, pullPhase_res, pullPhase_winners]
      exact hs
    unfold swarmStep swarmStepCore at hstep
    split at hstep
    case h_1 heq => cases hstep
    case h_2 b bs heq =>
      split at hstep
      case isTrue hcond =>
        split at hstep
        case h_1 cause hres => cases hstep
        case h_2 resp hres =>
          cases hstep
          show ((pullPhase s).yields ++ (pullPhase s).res.toList).map
              (fun x => (x._id, x.request))
            ++ (some { _id := (raceAux env b bs).1
                       request := (raceAux env b bs).2
                       response := resp } :
                Option FetchResult).toList.map (fun x => (x._id, x.request))
            = (pullPhase s).winners ++ [raceAux env b bs]
          rw [List.map_append]
          rw [hinv]
          simp
      case isFalse hcond =>
        cases hstep
        show (pullPhase s).yields.map (fun x => (x._id, x.request))
            ++ (pullPhase s).res.toList.map (fun x => (x._id, x.request))
          = (pullPhase s).winners
        exact hinv

theorem swarmLoop_race_min (env : FetchEnv) (k : Nat) :
    ∀ fuel s,
      (∀ e ∈ s.logs, ∀ snap w, e.raceSnapshot = some (snap, w) →
        w ∈ snap ∧ ∀ x ∈ snap, env.settle w.1 w.2 ≤ env.settle x.1 x.2) →
      ∀ e ∈ (swarmLoop env k fuel s).final.logs, ∀ snap w,
        e.raceSnapshot = some (snap, w) →
        w ∈ snap ∧ ∀ x ∈ snap, env.settle w.1 w.2 ≤ env.settle x.1 x.2 := by
  intro fuel s h0
  refine swarmLoop_invariant env k
    (fun s => ∀ e ∈ s.logs, ∀ snap w, e.raceSnapshot = some (snap, w) →
      w ∈ snap ∧ ∀ x ∈ snap, env.settle w.1 w.2 ≤ env.settle x.1 x.2)
    (fun r => ∀ e ∈ r.final.logs, ∀ snap w, e.raceSnapshot = some (snap, w) →
      w ∈ snap ∧ ∀ x ∈ snap, env.settle w.1 w.2 ≤ env.settle x.1 x.2)
    ?hhalt ?hnext ?hstop fuel s h0
  case hstop =>
    intro s hs
    exact hs
  case hhalt =>
    intro s r hs hstep
    unfold swarmStep swarmStepCore at hstep
    split at hstep
    case h_1 heq =>
      cases hstep
      intro e he snap w hsnap
      simp only [pullPhase_logs, List.mem_append, List.mem_singleton] at he
      rcases he with he | he
      · exact hs e he snap w hsnap
      · rw [he] at hsnap
        simp [mkLog] at hsnap
    case h_2 b bs heq =>
      split at hstep
      case isTrue hcond =>
        split at hstep
        case h_1 cause hres =>
          cases hstep
          intro e he snap w hsnap
          simp only [pullPhase_logs, List.mem_append, List.mem_singleton] at he
          rcases he with he | he
          · exact hs e he snap w hsnap
          · rw [he] at hsnap
            simp [mkLog] at hsnap
            rcases hsnap with ⟨hsnap1, hsnap2⟩
            rw [← hsnap1, ← hsnap2, heq]
            exact ⟨raceAux_mem env b bs, raceAux_min env b bs⟩
        case h_2 resp hres => cases hstep
      case isFalse hcond => cases hstep
  case hnext =>
    intro s s2 hs hstep
    unfold swarmStep swarmStepCore at hstep
    split at hstep
    case h_1 heq => cases hstep
    case h_2 b bs heq =>
      split at hstep
      case isTrue hcond =>
        split at hstep
        case h_1 cause hres => cases hstep
        case h_2 resp hres =>
          cases hstep
          intro e he snap w hsnap
          simp only [pullPhase_logs, List.mem_append, List.mem_singleton] at he
          rcases he with he | he
          · exact hs e he snap w hsnap
          · rw [he] at hsnap
            simp [mkLog] at hsnap
            rcases hsnap with ⟨hsnap1, hsnap2⟩
            rw [← hsnap1, ← hsnap2, heq]
            exact ⟨raceAux_mem env b bs, raceAux_min env b bs⟩
      case isFalse hcond =>
        cases hstep
        intro e he snap w hsnap
        simp only [pullPhase_logs, List.mem_append, List.mem_singleton] at he
        rcases he with he | he
        · exact hs e he snap w hsnap
        · rw [he] at hsnap
          simp [mkLog] at hsnap

/-- C6: without the ordered option, outcomes are yielded in completion
order: at each wait (each logged Promise.race) the winning bundle is a
member of the then in-flight set settling no later than every other member,
and on an error-free run the sequence of yielded outcomes is exactly the
sequence of race winners in the order the races were won. -/
theorem C6_completion_order (env : FetchEnv) (c : Connection)
    (requests : List Request) (options : SwarmOptions) :
    ((Connection.swarm c env requests options).error = none →
      (Connection.swarm c env requests options).final.yields.map
          (fun x => (x._id, x.request))
        = (Connection.swarm c env requests options).final.winners) ∧
      (∀ e ∈ (Connection.swarm c env requests options).final.logs, ∀ snap w,
        e.raceSnapshot = some (snap, w) →
        w ∈ snap ∧ ∀ x ∈ snap, env.settle w.1 w.2 ≤ env.settle x.1 x.2) := by
  constructor
  · intro herr
    have hfo := swarmRun_fuelOut env c.concurrency requests
    unfold Connection.swarm swarmRun at *
    refine swarmLoop_yields_order env c.concurrency _ _ ?_ herr hfo
    simp [initLoopState]
  · unfold Connection.swarm swarmRun
    apply swarmLoop_race_min
    intro e he
    simp [initLoopState] at he

/-- Witness for C6: on the concrete error-free run of [1, 2] the yielded
outcomes equal the race winners in order, and the first logged race winner
settles no later than the other in-flight bundle. -/
theorem C6_witness :
    (Connection.swarm defaultConn envTwoFast [1, 2]
        { ordered := false }).final.yields.map (fun x => (x._id, x.request))
      = (Connection.swarm defaultConn envTwoFast [1, 2]
        { ordered := false }).final.winners ∧
      (2, 2) ∈ [(1, 1), (2, 2)] ∧
      envTwoFast.settle 2 2 ≤ envTwoFast.settle 1 1 := by
  have h := C6_completion_order envTwoFast defaultConn [1, 2] { ordered := false }
  refine ⟨h.1 (by decide), by decide, ?_⟩
  exact (h.2 ((Connection.swarm defaultConn envTwoFast [1, 2]
      { ordered := false }).final.logs.getD 1 dLog) (by decide)
    [(1, 1), (2, 2)] (2, 2) (by decide)).2 (1, 1) (by decide)

/-! Rate limiter lemmas (claim C4). -/

theorem foldl_max_init (l : List Nat) : ∀ a : Nat, a ≤ l.foldl max a := by
  induction l with
  | nil => intro a; exact Nat.le_refl a
  | cons x xs ih =>
      intro a
      have h1 : a ≤ max a x := Nat.le_max_left a x
      have h2 := ih (max a x)
      simpa [List.foldl_cons] using Nat.le_trans h1 h2

theorem foldl_max_le_mem (l : List Nat) : ∀ (a y : Nat), y ∈ l → y ≤ l.foldl max a := by
  induction l with
  | nil => intro a y hy; cases hy
  | cons x xs ih =>
      intro a y hy
      rcases List.mem_cons.mp hy with hy | hy
      · have h1 : y ≤ max a x := by
          rw [hy]
          exact Nat.le_max_right a x
        have h2 := foldl_max_init xs (max a x)
        simpa [List.foldl_cons] using Nat.le_trans h1 h2
      · simpa [List.foldl_cons] using ih (max a x) y hy

theorem lastAt_ge (ds : List Nat) (t d : Nat) (hd : d ∈ ds) (hdt : d ≤ t) :
    d ≤ lastAt ds t := by
  unfold lastAt
  apply foldl_max_le_mem
  rw [List.mem_filter]
  exact ⟨hd, by simpa using hdt⟩

theorem dispatchGo_chain (m : Nat) :
    ∀ (ts prior : List Nat), serialAdmissionsB m prior ts = true →
      List.Chain' (fun a b => a + m ≤ b) (dispatchGo m prior ts) := by
  intro ts
  induction ts with
  | nil =>
      intro prior h
      simp [dispatchGo]
  | cons t1 rest ih =>
      intro prior h
      cases rest with
      | nil => simp [dispatchGo]
      | cons t2 rest2 =>
          have hser := h
          unfold serialAdmissionsB at hser
          rw [Bool.and_eq_true] at hser
          have h1 : dispatchTime m (lastAt prior t1) t1 ≤ t2 :=
            of_decide_eq_true hser.1
          have h2 := hser.2
          have hgo : dispatchGo m prior (t1 :: t2 :: rest2)
              = dispatchTime m (lastAt prior t1) t1 ::
                dispatchTime m (lastAt (prior ++ [dispatchTime m (lastAt prior t1) t1]) t2) t2 ::
                dispatchGo m ((prior ++ [dispatchTime m (lastAt prior t1) t1]) ++
                  [dispatchTime m (lastAt (prior ++ [dispatchTime m (lastAt prior t1) t1]) t2) t2])
                  rest2 := rfl
          rw [hgo]
          rw [List.chain'_cons]
          constructor
          · have hmem : dispatchTime m (lastAt prior t1) t1
                ∈ prior ++ [dispatchTime m (lastAt prior t1) t1] := by
              simp
            have hge := lastAt_ge (prior ++ [dispatchTime m (lastAt prior t1) t1]) t2
              (dispatchTime m (lastAt prior t1) t1) hmem h1
            have h3 : lastAt (prior ++ [dispatchTime m (lastAt prior t1) t1]) t2 + m
                ≤ dispatchTime m
                  (lastAt (prior ++ [dispatchTime m (lastAt prior t1) t1]) t2) t2 :=
              Nat.le_max_right _ _
            omega
          · have := ih (prior ++ [dispatchTime m (lastAt prior t1) t1]) h2
            exact this

/-- Counterexample to C4 as stated: three bundles admitted at times 1000,
1001, 1002 (all before the delayed dispatches of the earlier ones fire, as
happens when swarm admits several bundles back to back) compute their delays
from the same stale lastFetchTime, giving dispatch starts 1000, 1150, 1150
with minMsBetweenRequests = 150: the last two dispatch starts are 0 ms
apart, violating the claimed minimum spacing. -/
theorem C4_counterexample :
    dispatchSchedule 150 [1000, 1001, 1002] = [1000, 1150, 1150] ∧
      ¬ List.Chain' (fun a b => a + 150 ≤ b)
        (dispatchSchedule 150 [1000, 1001, 1002]) := by
  constructor
  · rfl
  · intro h
    rw [show dispatchSchedule 150 [1000, 1001, 1002] = [1000, 1150, 1150] from rfl]
      at h
    rw [List.chain'_cons, List.chain'_cons] at h
    omega

/-- C4 amended: the limiter delays dispatches (never rejects) and records
each actual dispatch time into lastFetchTime, but the guarantee of at least
minMsBetweenRequests between consecutive dispatch starts holds only when
admissions are serialized — each bundle admitted no earlier than the
dispatch of the previous one, so that no bundle reads a stale
lastFetchTime. Under that condition every pair of consecutive dispatch
starts is at least m apart; concurrently admitted bundles can dispatch
under-spaced (see the counterexample). -/
theorem C4_serialized_spacing (m : Nat) (ts : List Nat)
    (h : serialAdmissionsB m [] ts = true) :
    List.Chain' (fun a b => a + m ≤ b) (dispatchSchedule m ts) :=
  dispatchGo_chain m ts [] h

/-- Witness for C4: serialized admissions at 1000, 1150, 1300 with
m = 150 give dispatch starts spaced at least 150 ms apart. -/
theorem C4_witness :
    serialAdmissionsB 150 [] [1000, 1150, 1300] = true ∧
      List.Chain' (fun a b => a + 150 ≤ b)
        (dispatchSchedule 150 [1000, 1150, 1300]) := by
  constructor
  · decide
  · exact C4_serialized_spacing 150 [1000, 1150, 1300] (by decide)

end FetchScrape
